import Mathlib

/-!
Shallow embedding of the dev-reverse-proxy registration server (Go).

The embedding models, from the source:
- `validateSubdomain` and `toInternalID` (validation.go);
- the `ServerManager` registry (a Go `map[string]*Client`) as an
  association list with pairwise-distinct keys;
- the HTTP handlers `handleRegister`, `handleHeartbeat`,
  `handleUnregister`, `getStatus`, `getClients`;
- one sweep of `checkHeartbeats` (the body of one ticker iteration);
- `generateConfig` (the Traefik routing document and its serialization;
  `yaml.Marshal` of gopkg.in/yaml.v3 emits map keys in sorted order,
  modelled by an insertion sort on the entry key).

Go `time.Time` / `time.Duration` values are modelled as `Int`
(nanoseconds); `now.Sub(t) > timeout` becomes `now - t > timeout`.
-/

/-- ASCII alphanumeric test, the character class `[a-zA-Z0-9]` used by the
source regular expression. -/
def isAlnumGo (c : Char) : Bool :=
  ('a' ≤ c && c ≤ 'z') || ('A' ≤ c && c ≤ 'Z') || ('0' ≤ c && c ≤ '9')

/-- Go `strings.Split(s, sep)` for a single-character separator, on the
character list of the string. `splitChar sep []` is `[[]]`, matching Go
where `strings.Split("", ".")` is `[""]`. -/
def splitChar (sep : Char) : List Char → List (List Char)
  | [] => [[]]
  | c :: cs =>
    if c = sep then [] :: splitChar sep cs
    else
      match splitChar sep cs with
      | [] => [[c]]
      | p :: ps => (c :: p) :: ps

/-- Language of the anchored regular expression
`^[a-zA-Z0-9]([a-zA-Z0-9-]*[a-zA-Z0-9])?$` (`subdomainPartRegex` in the
source): a non-empty string whose first and last characters are ASCII
alphanumeric and all of whose characters are ASCII alphanumeric or a
hyphen. -/
def partRegexMatch (p : List Char) : Bool :=
  match p.head?, p.getLast? with
  | some h, some t => isAlnumGo h && isAlnumGo t && p.all (fun c => isAlnumGo c || c == '-')
  | _, _ => false

/-- Embedding of `validateSubdomain` from the source: split on `.`, reject
when there are no parts (dead in Go: `strings.Split` never returns an
empty slice) or the byte length exceeds 1500, then require every part to
be 1 to 63 characters and to match `subdomainPartRegex`. -/
def validateSubdomain (s : String) : Bool :=
  if (splitChar '.' s.data).length == 0 || s.utf8ByteSize > 1500 then false
  else
    (splitChar '.' s.data).all (fun part =>
      if part.length == 0 || part.length > 63 then false
      else partRegexMatch part)

/-- Embedding of `toInternalID` from the source:
`strings.ReplaceAll(subdomain, ".", "_")`, a per-character map since both
pattern and replacement are single characters. -/
def toInternalID (s : String) : String :=
  String.mk (s.data.map (fun c => if c = '.' then '_' else c))

/-- Spec-side description of one valid label: 1 to 63 characters, only
ASCII alphanumerics and hyphens, neither starting nor ending with a
hyphen. Stated from the spec text, to be compared with the source
embedding `validateSubdomain`. -/
def specLabelOk (p : List Char) : Prop :=
  1 ≤ p.length ∧ p.length ≤ 63 ∧
  (∀ c ∈ p, isAlnumGo c = true ∨ c = '-') ∧
  (∀ h, p.head? = some h → h ≠ '-') ∧
  (∀ t, p.getLast? = some t → t ≠ '-')

/-- Spec-side description of a valid identifier: total length at most 1500
and every dot-separated label valid. -/
def specValidIdentifier (s : String) : Prop :=
  s.utf8ByteSize ≤ 1500 ∧ ∀ p ∈ splitChar '.' s.data, specLabelOk p

/-- Embedding of the Go `Client` struct: internal id (the map key), port,
original subdomain (display name), and last heartbeat time. -/
structure GoClient where
  id : String
  port : Int
  subdomain : String
  lastHeartbeat : Int
deriving Repr, DecidableEq

/-- The `ServerManager.clients` map `map[string]*Client`, modelled as an
association list. Go map iteration order is arbitrary, so statements that
depend on iteration order quantify over permutations; Go maps never hold
two bindings for one key, captured where needed by a `Nodup` hypothesis on
the keys. -/
abbrev Registry := List (String × GoClient)

/-- Go map lookup `sm.clients[internalID]`. -/
def lookupClient (reg : Registry) (k : String) : Option GoClient :=
  match reg.find? (fun p => p.1 == k) with
  | some p => some p.2
  | none => none

/-- Outcome of `handleRegister`: HTTP status, the `url` field of a success
response, the registry afterwards, and whether `generateConfig` ran. -/
structure RegisterOut where
  status : Nat
  url : Option String
  reg : Registry
  regen : Bool
deriving Repr, DecidableEq

/-- Embedding of `handleRegister`: method check, validation, port range
check, duplicate check against the map, then insertion with
`lastHeartbeat = now` and a 200 response carrying
`<subdomain>.localhost`. The JSON decoding step is below this embedding:
the handler is given the decoded request. -/
def handleRegister (method : String) (reg : Registry) (reqId : String)
    (reqPort now : Int) : RegisterOut :=
  if method ≠ "POST" then ⟨405, none, reg, false⟩
  else if !validateSubdomain reqId then ⟨400, none, reg, false⟩
  else if reqPort < 1 ∨ reqPort > 65535 then ⟨400, none, reg, false⟩
  else
    match lookupClient reg (toInternalID reqId) with
    | some _ => ⟨409, none, reg, false⟩
    | none =>
      ⟨200, some (reqId ++ ".localhost"),
        reg ++ [(toInternalID reqId, ⟨toInternalID reqId, reqPort, reqId, now⟩)], true⟩

/-- Outcome of the heartbeat and unregister handlers: HTTP status, the
registry afterwards, and whether `generateConfig` ran. -/
structure HandlerOut where
  status : Nat
  reg : Registry
  regen : Bool
deriving Repr, DecidableEq

/-- Embedding of `handleHeartbeat`: method check, empty-id check, lookup of
the canonicalized id, and on success an in-place update of the found
record's `LastHeartbeat` only. No `generateConfig` call on any path. -/
def handleHeartbeat (method : String) (reg : Registry) (id_ : String)
    (now : Int) : HandlerOut :=
  if method ≠ "POST" then ⟨405, reg, false⟩
  else if id_ = "" then ⟨400, reg, false⟩
  else
    match lookupClient reg (toInternalID id_) with
    | none => ⟨404, reg, false⟩
    | some _ =>
      ⟨200,
        reg.map (fun p =>
          if p.1 = toInternalID id_ then (p.1, ⟨p.2.id, p.2.port, p.2.subdomain, now⟩)
          else p),
        false⟩

/-- Embedding of `handleUnregister`: method check, empty-id check, lookup of
the canonicalized id, then `delete` from the map and a `generateConfig`
call. -/
def handleUnregister (method : String) (reg : Registry) (id_ : String) : HandlerOut :=
  if method ≠ "POST" then ⟨405, reg, false⟩
  else if id_ = "" then ⟨400, reg, false⟩
  else
    match lookupClient reg (toInternalID id_) with
    | none => ⟨404, reg, false⟩
    | some _ => ⟨200, reg.filter (fun p => p.1 != toInternalID id_), true⟩

/-- Embedding of `getStatus`. The source performs no method check: it
always answers 200 with the client count. -/
def getStatus (method : String) (reg : Registry) : Nat × Nat :=
  (200, reg.length)

/-- Embedding of `getClients`. The source performs no method check: it
always answers 200 with the client list (id, domain, port, heartbeat). -/
def getClients (method : String) (reg : Registry) :
    Nat × List (String × String × Int × Int) :=
  (200, reg.map (fun p => (p.2.id, p.2.subdomain ++ ".localhost", p.2.port, p.2.lastHeartbeat)))

/-- Ids collected by one `checkHeartbeats` iteration:
those with `now.Sub(client.LastHeartbeat) > sm.heartbeatTimeout`
(strict comparison). -/
def expiredIds (reg : Registry) (now timeout : Int) : List String :=
  (reg.filter (fun p => decide (timeout < now - p.2.lastHeartbeat))).map Prod.fst

/-- The `delete(sm.clients, id)` loop over the collected ids. -/
def deleteIds (ids : List String) (reg : Registry) : Registry :=
  ids.foldl (fun r i => r.filter (fun p => p.1 != i)) reg

/-- One iteration of the `checkHeartbeats` ticker body: collect expired
ids, delete them, and run `generateConfig` iff `len(expired) > 0`.
Returns the registry afterwards, the evicted ids, and the
regeneration flag. -/
def checkHeartbeatsSweep (reg : Registry) (now timeout : Int) :
    Registry × List String × Bool :=
  (deleteIds (expiredIds reg now timeout) reg, expiredIds reg now timeout,
    decide (0 < (expiredIds reg now timeout).length))

/-- Traefik router entry from the source config structs. -/
structure Router where
  entryPoints : List String
  rule : String
  service : String
deriving Repr, DecidableEq

/-- One target of a Traefik load balancer. -/
structure TraefikServer where
  url : String
deriving Repr, DecidableEq

/-- Traefik load balancer: its list of servers. -/
structure LoadBalancer where
  servers : List TraefikServer
deriving Repr, DecidableEq

/-- Traefik service entry: a load balancer. -/
structure Service where
  loadBalancer : LoadBalancer
deriving Repr, DecidableEq

/-- The router generated for one client in `generateConfig`. -/
def mkRouter (internalID : String) (c : GoClient) : Router :=
  ⟨["web"], "Host(`" ++ c.subdomain ++ ".localhost`)", "local-" ++ internalID⟩

/-- The service generated for one client in `generateConfig`:
one server with URL `http://host.docker.internal:<port>`. -/
def mkService (c : GoClient) : Service :=
  ⟨⟨[⟨"http://host.docker.internal:" ++ toString c.port⟩]⟩⟩

/-- The routers map built by the `generateConfig` loop, keyed
`"sub-" + internalID`. -/
def configRouters (reg : Registry) : List (String × Router) :=
  reg.map (fun p => ("sub-" ++ p.1, mkRouter p.1 p.2))

/-- The services map built by the `generateConfig` loop, keyed
`"local-" + internalID`. -/
def configServices (reg : Registry) : List (String × Service) :=
  reg.map (fun p => ("local-" ++ p.1, mkService p.2))

/-- Comparison of map entries by key, the order in which `yaml.Marshal`
(gopkg.in/yaml.v3) emits the keys of a Go map. -/
def keyLe {α : Type} (a b : String × α) : Prop := a.1 ≤ b.1

instance {α : Type} : DecidableRel (@keyLe α) :=
  fun a b => inferInstanceAs (Decidable (a.1 ≤ b.1))

instance {α : Type} : IsTotal (String × α) (@keyLe α) :=
  ⟨fun a b => le_total a.1 b.1⟩

instance {α : Type} : IsTrans (String × α) (@keyLe α) :=
  ⟨fun _ _ _ h1 h2 => le_trans h1 h2⟩

/-- Map entries in the key order in which `yaml.Marshal` serializes them. -/
def sortEntries {α : Type} (l : List (String × α)) : List (String × α) :=
  List.insertionSort (@keyLe α) l

/-- Rendering of one router entry in the marshalled document. -/
def renderRouterEntry (e : String × Router) : String :=
  "        " ++ e.1 ++ ":\n            entryPoints:\n" ++
    String.join (e.2.entryPoints.map (fun x => "                - " ++ x ++ "\n")) ++
    "            rule: " ++ e.2.rule ++ "\n            service: " ++ e.2.service ++ "\n"

/-- Rendering of one service entry in the marshalled document. -/
def renderServiceEntry (e : String × Service) : String :=
  "        " ++ e.1 ++ ":\n            loadBalancer:\n                servers:\n" ++
    String.join (e.2.loadBalancer.servers.map
      (fun srv => "                    - url: " ++ srv.url ++ "\n"))

/-- The serialized bytes `yaml.Marshal(config)` produces in
`generateConfig`: routers then services, each map with its keys in
sorted order. -/
def renderConfig (reg : Registry) : String :=
  "http:\n    routers:\n" ++
    String.join ((sortEntries (configRouters reg)).map renderRouterEntry) ++
    "    services:\n" ++
    String.join ((sortEntries (configServices reg)).map renderServiceEntry)

/-- One registry-mutating event: an HTTP register, heartbeat or unregister
request, or one expiry sweep. -/
inductive Op where
  | register (id_ : String) (port : Int) (now : Int)
  | heartbeat (id_ : String) (now : Int)
  | unregister (id_ : String)
  | expire (now : Int) (timeout : Int)
deriving Repr

/-- Effect of one event on the registry. -/
def applyOp (reg : Registry) : Op → Registry
  | Op.register i p now => (handleRegister "POST" reg i p now).reg
  | Op.heartbeat i now => (handleHeartbeat "POST" reg i now).reg
  | Op.unregister i => (handleUnregister "POST" reg i).reg
  | Op.expire now timeout => (checkHeartbeatsSweep reg now timeout).1

/-- Registry reached from the empty initial map (`NewServerManager`) by a
finite sequence of events. -/
def runOps (ops : List Op) : Registry :=
  ops.foldl applyOp []

/-- One observable filesystem action. -/
inductive FsOp where
  | truncate (path : String)
  | writeData (path : String) (data : String)
  | rename (src : String) (dst : String)
deriving Repr, DecidableEq

/-- Go `os.WriteFile(name, data, perm)`: it opens `name` with
`O_WRONLY|O_CREATE|O_TRUNC` and then writes `data` — two separately
observable steps on the destination itself, with no temporary file. -/
def writeFileOps (path : String) (data : String) : List FsOp :=
  [FsOp.truncate path, FsOp.writeData path data]

/-- The filesystem actions `generateConfig` performs: a direct
`os.WriteFile` of the marshalled document to `configDir + "/dynamic.yml"`. -/
def generateConfigFsOps (configDir : String) (reg : Registry) : List FsOp :=
  writeFileOps (configDir ++ "/dynamic.yml") (renderConfig reg)

/-- Filesystem contents, one string per path. -/
abbrev Fs := String → String

/-- Effect of one filesystem action on the contents map. -/
def stepFs (fs : Fs) : FsOp → Fs
  | FsOp.truncate p => fun q => if q = p then "" else fs q
  | FsOp.writeData p d => fun q => if q = p then d else fs q
  | FsOp.rename src dst => fun q => if q = dst then fs src else fs q

/-- Contents of `path` that a concurrent reader can observe while the
actions run: the contents before the first action and after each
action. -/
def observableContents (fs : Fs) (path : String) : List FsOp → List String
  | [] => [fs path]
  | op :: rest => fs path :: observableContents (stepFs fs op) path rest

theorem lookupClient_eq_none_iff (reg : Registry) (k : String) :
    lookupClient reg k = none ↔ k ∉ reg.map Prod.fst := by
  unfold lookupClient
  cases h : reg.find? (fun p => p.1 == k) with
  | none =>
    simp only [List.find?_eq_none, beq_iff_eq] at h
    simp only [List.mem_map, true_iff]
    rintro ⟨p, hp, hk⟩
    exact h p hp hk
  | some p =>
    have hmem := List.mem_of_find?_eq_some h
    have hpred := List.find?_some h
    simp only [beq_iff_eq] at hpred
    constructor
    · intro hcontra
      cases hcontra
    · intro hk
      exact absurd (List.mem_map.mpr ⟨p, hmem, hpred⟩) hk

theorem lookupClient_some_mem {reg : Registry} {k : String} {c : GoClient}
    (h : lookupClient reg k = some c) : (k, c) ∈ reg := by
  unfold lookupClient at h
  cases hf : reg.find? (fun p => p.1 == k) with
  | none => rw [hf] at h; cases h
  | some p =>
    rw [hf] at h
    have hmem := List.mem_of_find?_eq_some hf
    have hpred := List.find?_some hf
    simp only [beq_iff_eq] at hpred
    simp only [Option.some.injEq] at h
    have : p = (k, c) := by
      cases p
      simp only [Prod.mk.injEq]
      exact ⟨hpred, h⟩
    rwa [this] at hmem

theorem deleteIds_eq_filter : ∀ (ids : List String) (reg : Registry),
    deleteIds ids reg = reg.filter (fun p => !(ids.contains p.1)) := by
  intro ids
  induction ids with
  | nil =>
    intro reg
    simp [deleteIds]
  | cons i rest ih =>
    intro reg
    unfold deleteIds
    simp only [List.foldl_cons]
    have : rest.foldl (fun r j => r.filter (fun p => p.1 != j))
        (reg.filter (fun p => p.1 != i)) = deleteIds rest (reg.filter (fun p => p.1 != i)) := rfl
    rw [this, ih, List.filter_filter]
    apply List.filter_congr
    intro p _
    simp only [List.contains_cons, Bool.not_or, Bool.and_comm]
    rfl

theorem eq_of_mem_of_nodupKeys {α : Type} :
    ∀ {reg : List (String × α)}, (reg.map Prod.fst).Nodup →
      ∀ {p q : String × α}, p ∈ reg → q ∈ reg → p.1 = q.1 → p = q := by
  intro reg
  induction reg with
  | nil => intro _ p q hp; cases hp
  | cons hd tl ih =>
    intro hnd p q hp hq hfst
    simp only [List.map_cons, List.nodup_cons] at hnd
    obtain ⟨hhd, htl⟩ := hnd
    rcases List.mem_cons.mp hp with rfl | hp2
    · rcases List.mem_cons.mp hq with rfl | hq2
      · rfl
      · exact absurd (hfst ▸ List.mem_map_of_mem Prod.fst hq2) hhd
    · rcases List.mem_cons.mp hq with rfl | hq2
      · exact absurd (hfst ▸ List.mem_map_of_mem Prod.fst hp2) hhd
      · exact ih htl hp2 hq2 hfst

theorem string_append_left_cancel {s a b : String} (h : s ++ a = s ++ b) : a = b := by
  have hd := congrArg String.data h
  simp only [String.data_append] at hd
  exact String.ext (List.append_cancel_left hd)

theorem splitChar_ne_nil (sep : Char) (l : List Char) : splitChar sep l ≠ [] := by
  cases l with
  | nil => simp [splitChar]
  | cons c cs =>
    simp only [splitChar]
    split
    · simp
    · cases h : splitChar sep cs <;> simp

theorem mem_splitChar {sep : Char} {l : List Char} {c : Char} (hc : c ∈ l) :
    c = sep ∨ ∃ p ∈ splitChar sep l, c ∈ p := by
  induction l with
  | nil => cases hc
  | cons x xs ih =>
    rcases List.mem_cons.mp hc with rfl | hmem
    · by_cases hx : c = sep
      · exact Or.inl hx
      · refine Or.inr ?_
        simp only [splitChar, if_neg hx]
        cases h : splitChar sep xs with
        | nil => exact ⟨[c], by simp⟩
        | cons p ps => exact ⟨c :: p, by simp⟩
    · rcases ih hmem with h | ⟨p, hp, hcp⟩
      · exact Or.inl h
      · refine Or.inr ?_
        simp only [splitChar]
        by_cases hx : x = sep
        · exact ⟨p, by simp [hx, hp], hcp⟩
        · rw [if_neg hx]
          cases h : splitChar sep xs with
          | nil => rw [h] at hp; cases hp
          | cons q qs =>
            rw [h] at hp
            rcases List.mem_cons.mp hp with rfl | hps
            · exact ⟨x :: p, by simp, List.mem_cons_of_mem _ hcp⟩
            · exact ⟨p, by simp [hps], hcp⟩

theorem partRegexMatch_cons (c : Char) (rest : List Char) :
    partRegexMatch (c :: rest) =
      (isAlnumGo c && isAlnumGo ((c :: rest).getLast (by simp)) &&
        (c :: rest).all (fun x => isAlnumGo x || x == '-')) := by
  have h : (c :: rest).getLast? = some ((c :: rest).getLast (by simp)) :=
    List.getLast?_eq_getLast _ _
  simp only [partRegexMatch, List.head?_cons, h]

theorem labelCheck_iff (p : List Char) :
    ((if p.length == 0 || p.length > 63 then false else partRegexMatch p) = true) ↔
      specLabelOk p := by
  cases p with
  | nil => simp [specLabelOk]
  | cons c rest =>
    by_cases hlen : (c :: rest).length > 63
    · have hcond : (((c :: rest).length == 0) || decide ((c :: rest).length > 63)) = true := by
        simp only [Bool.or_eq_true, decide_eq_true_eq]
        exact Or.inr hlen
      rw [if_pos hcond]
      constructor
      · intro h
        exact absurd h (by simp)
      · rintro ⟨-, h63, -⟩
        exact absurd h63 (by omega)
    · have h63 : (c :: rest).length ≤ 63 := by omega
      have hcond : (((c :: rest).length == 0) || decide ((c :: rest).length > 63)) = false := by
        simp only [Bool.or_eq_false_iff, decide_eq_false_iff_not]
        exact ⟨by simp, hlen⟩
      rw [hcond]
      simp only [Bool.false_eq_true, if_false, partRegexMatch_cons]
      constructor
      · intro h
        simp only [Bool.and_eq_true, List.all_eq_true, Bool.or_eq_true, beq_iff_eq] at h
        obtain ⟨⟨hh, hl⟩, hall⟩ := h
        refine ⟨by simp, h63, fun x hx => hall x hx, ?_, ?_⟩
        · intro y hy
          simp only [List.head?_cons, Option.some.injEq] at hy
          subst hy
          intro hcontra
          rw [hcontra] at hh
          exact absurd hh (by decide)
        · intro t ht
          rw [List.getLast?_eq_getLast _ (by simp : c :: rest ≠ [])] at ht
          simp only [Option.some.injEq] at ht
          subst ht
          intro hcontra
          rw [hcontra] at hl
          exact absurd hl (by decide)
      · rintro ⟨-, -, hall, hhead, hlast⟩
        have hc : isAlnumGo c = true := by
          rcases hall c (by simp) with h | h
          · exact h
          · exact absurd h (hhead c (by simp))
        have hgl : (c :: rest).getLast (by simp) ∈ c :: rest := List.getLast_mem _
        have hl : isAlnumGo ((c :: rest).getLast (by simp)) = true := by
          rcases hall _ hgl with h | h
          · exact h
          · refine absurd h (hlast _ ?_)
            rw [List.getLast?_eq_getLast _ (by simp : c :: rest ≠ [])]
        simp only [Bool.and_eq_true, List.all_eq_true, Bool.or_eq_true, beq_iff_eq]
        exact ⟨⟨hc, hl⟩, fun x hx => hall x hx⟩

/-- Equivalence of the validator embedding with the spec-side predicate,
shared by the claim statements below. -/
theorem validate_iff_spec_aux (s : String) :
    validateSubdomain s = true ↔ specValidIdentifier s := by
  unfold validateSubdomain specValidIdentifier
  have hne := splitChar_ne_nil '.' s.data
  have hlenz : ((splitChar '.' s.data).length == 0) = false := by
    simp only [beq_eq_false_iff_ne, ne_eq, List.length_eq_zero]
    exact hne
  rw [hlenz]
  simp only [Bool.false_or]
  by_cases hb : s.utf8ByteSize > 1500
  · have : ¬(s.utf8ByteSize ≤ 1500) := by omega
    simp [hb, this]
  · have hle : s.utf8ByteSize ≤ 1500 := by omega
    simp only [gt_iff_lt, decide_eq_true_eq, if_neg hb, List.all_eq_true, hle, true_and]
    constructor
    · intro h p hp
      exact (labelCheck_iff p).mp (h p hp)
    · intro h p hp
      exact (labelCheck_iff p).mpr (h p hp)

theorem underscore_not_mem_of_valid {s : String} (h : validateSubdomain s = true) :
    '_' ∉ s.data := by
  intro hmem
  rcases @mem_splitChar '.' s.data '_' hmem with heq | ⟨p, hp, hcp⟩
  · exact absurd heq (by decide)
  · obtain ⟨-, hall⟩ := (validate_iff_spec_aux s).mp h
    obtain ⟨-, -, hchars, -, -⟩ := hall p hp
    rcases hchars '_' hcp with hc | hc
    · exact absurd hc (by decide)
    · exact absurd hc (by decide)

theorem mapDot_inj : ∀ (l1 l2 : List Char), '_' ∉ l1 → '_' ∉ l2 →
    l1.map (fun c => if c = '.' then '_' else c) =
      l2.map (fun c => if c = '.' then '_' else c) → l1 = l2 := by
  intro l1
  induction l1 with
  | nil =>
    intro l2 _ _ h
    cases l2 with
    | nil => rfl
    | cons b t2 => simp at h
  | cons a t ih =>
    intro l2 h1 h2 h
    cases l2 with
    | nil => simp at h
    | cons b t2 =>
      simp only [List.map_cons, List.cons.injEq] at h
      obtain ⟨hab, ht⟩ := h
      have ha : a ≠ '_' := fun hc => h1 (by simp [hc])
      have hb : b ≠ '_' := fun hc => h2 (by simp [hc])
      have hhead : a = b := by
        by_cases hadot : a = '.'
        · by_cases hbdot : b = '.'
          · rw [hadot, hbdot]
          · rw [if_pos hadot, if_neg hbdot] at hab
            exact absurd hab.symm hb
        · by_cases hbdot : b = '.'
          · rw [if_neg hadot, if_pos hbdot] at hab
            exact absurd hab ha
          · rwa [if_neg hadot, if_neg hbdot] at hab
      have htail : t = t2 :=
        ih t2 (fun hc => h1 (List.mem_cons_of_mem _ hc))
          (fun hc => h2 (List.mem_cons_of_mem _ hc)) ht
      rw [hhead, htail]

/-- C9: canonicalization (dot to underscore) is injective on identifiers
accepted by the validator, because valid identifiers contain no
underscore. -/
theorem canonicalize_injective_on_valid (d1 d2 : String)
    (h1 : validateSubdomain d1 = true) (h2 : validateSubdomain d2 = true)
    (hne : d1 ≠ d2) : toInternalID d1 ≠ toInternalID d2 := by
  intro heq
  apply hne
  have hdata := congrArg String.data heq
  simp only [toInternalID] at hdata
  have hd := mapDot_inj d1.data d2.data (underscore_not_mem_of_valid h1)
    (underscore_not_mem_of_valid h2) hdata
  exact String.ext hd

/-- Witness for C9 at the concrete pair "a.b", "ab". -/
theorem canonicalize_injective_on_valid_witness :
    validateSubdomain "a.b" = true ∧ validateSubdomain "ab" = true ∧
      toInternalID "a.b" ≠ toInternalID "ab" :=
  ⟨by decide, by decide,
    canonicalize_injective_on_valid "a.b" "ab" (by decide) (by decide) (by decide)⟩

theorem lookupClient_append_self (reg : Registry) (k : String) (c : GoClient)
    (h : lookupClient reg k = none) : lookupClient (reg ++ [(k, c)]) k = some c := by
  unfold lookupClient at h ⊢
  cases hf : reg.find? (fun p => p.1 == k) with
  | some p => rw [hf] at h; cases h
  | none =>
    rw [List.find?_append, hf]
    simp [List.find?]

/-- C3: with method POST, `register` answers 400 leaving the registry
unchanged when validation fails, 400 when the port is outside [1, 65535],
409 leaving the existing record unchanged when the canonical id is
already present, and otherwise 200 with url `<displayName>.localhost`,
appending a record with `lastHeartbeat = now`; a second in-range register
of the same identifier is always a 409 that changes nothing. -/
theorem register_contract (reg : Registry) (i : String) (p now : Int) :
    (validateSubdomain i = false → handleRegister "POST" reg i p now = ⟨400, none, reg, false⟩) ∧
    (validateSubdomain i = true → (p < 1 ∨ p > 65535) →
      handleRegister "POST" reg i p now = ⟨400, none, reg, false⟩) ∧
    (validateSubdomain i = true → 1 ≤ p → p ≤ 65535 →
      lookupClient reg (toInternalID i) ≠ none →
      handleRegister "POST" reg i p now = ⟨409, none, reg, false⟩) ∧
    (validateSubdomain i = true → 1 ≤ p → p ≤ 65535 →
      lookupClient reg (toInternalID i) = none →
      handleRegister "POST" reg i p now =
        ⟨200, some (i ++ ".localhost"),
          reg ++ [(toInternalID i, ⟨toInternalID i, p, i, now⟩)], true⟩) ∧
    (validateSubdomain i = true → 1 ≤ p → p ≤ 65535 →
      lookupClient reg (toInternalID i) = none →
      ∀ q now2, 1 ≤ q → q ≤ 65535 →
        handleRegister "POST" (handleRegister "POST" reg i p now).reg i q now2 =
          ⟨409, none, (handleRegister "POST" reg i p now).reg, false⟩) := by
  refine ⟨?_, ?_, ?_, ?_, ?_⟩
  · intro hv
    simp [handleRegister, hv]
  · intro hv hp
    simp [handleRegister, hv, hp]
  · intro hv h1 h2 hl
    have hport : ¬(p < 1 ∨ p > 65535) := by omega
    cases hlk : lookupClient reg (toInternalID i) with
    | none => exact absurd hlk hl
    | some c => simp [handleRegister, hv, hport, hlk]
  · intro hv h1 h2 hl
    have hport : ¬(p < 1 ∨ p > 65535) := by omega
    simp [handleRegister, hv, hport, hl]
  · intro hv h1 h2 hl q now2 hq1 hq2
    have hport : ¬(p < 1 ∨ p > 65535) := by omega
    have hportq : ¬(q < 1 ∨ q > 65535) := by omega
    have hfirst : (handleRegister "POST" reg i p now).reg =
        reg ++ [(toInternalID i, ⟨toInternalID i, p, i, now⟩)] := by
      simp [handleRegister, hv, hport, hl]
    rw [hfirst]
    have hlk := lookupClient_append_self reg (toInternalID i) ⟨toInternalID i, p, i, now⟩ hl
    simp [handleRegister, hv, hportq, hlk]

/-- Witness for C3: registering "myapp" on port 3000 succeeds with url
"myapp.localhost", and an immediate second registration of "myapp" is a
409 conflict that leaves the stored record unchanged. -/
theorem register_contract_witness :
    handleRegister "POST" [] "myapp" 3000 7 =
      ⟨200, some "myapp.localhost", [("myapp", ⟨"myapp", 3000, "myapp", 7⟩)], true⟩ ∧
    handleRegister "POST" [("myapp", ⟨"myapp", 3000, "myapp", 7⟩)] "myapp" 3001 8 =
      ⟨409, none, [("myapp", ⟨"myapp", 3000, "myapp", 7⟩)], false⟩ := by
  have h1 := (register_contract [] "myapp" 3000 7).2.2.2.1 (by decide) (by decide)
    (by decide) (by rfl)
  have h2 := (register_contract [] "myapp" 3000 7).2.2.2.2 (by decide) (by decide)
    (by decide) (by rfl) 3001 8 (by decide) (by decide)
  have hreg : (handleRegister "POST" [] "myapp" 3000 7).reg =
      [("myapp", ⟨"myapp", 3000, "myapp", 7⟩)] := by
    rw [h1]
    decide
  rw [hreg] at h2
  exact ⟨h1.trans (by decide), h2⟩

/-- C7 counterexample: a POST request to /status (and to /clients) is
answered 200, not 405 — the source checks the method only on the three
POST endpoints, never on `getStatus` or `getClients`. -/
theorem getStatus_ignores_method :
    getStatus "POST" [] = (200, 0) ∧ getClients "POST" [] = (200, []) ∧ (200 : Nat) ≠ 405 :=
  ⟨rfl, rfl, by decide⟩

/-- C7 amended: /register, /heartbeat and /unregister answer 405 to every
method other than POST, with no other effect; /status and /clients
perform no method check and answer 200 to every method. -/
theorem method_checks_amended (m : String) (reg : Registry) (i : String) (p now : Int) :
    (m ≠ "POST" → handleRegister m reg i p now = ⟨405, none, reg, false⟩) ∧
    (m ≠ "POST" → handleHeartbeat m reg i now = ⟨405, reg, false⟩) ∧
    (m ≠ "POST" → handleUnregister m reg i = ⟨405, reg, false⟩) ∧
    (getStatus m reg).1 = 200 ∧ (getClients m reg).1 = 200 := by
  refine ⟨?_, ?_, ?_, rfl, rfl⟩
  · intro h
    unfold handleRegister
    rw [if_pos h]
  · intro h
    unfold handleHeartbeat
    rw [if_pos h]
  · intro h
    unfold handleUnregister
    rw [if_pos h]

/-- Witness for the amended C7 at method "GET" (for the POST endpoints)
and "PUT" (for the GET endpoints). -/
theorem method_checks_amended_witness :
    handleRegister "GET" [] "a" 1 0 = ⟨405, none, [], false⟩ ∧
    handleHeartbeat "GET" [] "a" 0 = ⟨405, [], false⟩ ∧
    handleUnregister "GET" [] "a" = ⟨405, [], false⟩ ∧
    (getStatus "PUT" []).1 = 200 ∧ (getClients "PUT" []).1 = 200 :=
  ⟨(method_checks_amended "GET" [] "a" 1 0).1 (by decide),
    (method_checks_amended "GET" [] "a" 1 0).2.1 (by decide),
    (method_checks_amended "GET" [] "a" 1 0).2.2.1 (by decide),
    (method_checks_amended "PUT" [] "a" 1 0).2.2.2.1,
    (method_checks_amended "PUT" [] "a" 1 0).2.2.2.2⟩

/-- C8 counterexample: during the concrete artifact write for the registry
holding client "myapp", a reader of the destination path can observe the
empty (truncated) file — a state that is neither the previous contents
nor the new document. -/
theorem truncated_artifact_observable :
    "" ∈ observableContents (fun _ => "previous") ("/config" ++ "/dynamic.yml")
        (generateConfigFsOps "/config" [("myapp", ⟨"myapp", 3000, "myapp", 0⟩)]) ∧
    "" ≠ "previous" ∧
    "" ≠ renderConfig [("myapp", ⟨"myapp", 3000, "myapp", 0⟩)] := by
  refine ⟨?_, by decide, by decide⟩
  simp [generateConfigFsOps, writeFileOps, observableContents, stepFs]

/-- C8 amended: the artifact write is not an atomic replace. The source
calls `os.WriteFile` directly on the destination path: the observable
contents during one `generateConfig` are the previous contents, then the
empty truncated file, then the new document; no temporary file and no
rename is involved. -/
theorem generateConfig_write_not_atomic (dir : String) (reg : Registry) (fs : Fs) :
    observableContents fs (dir ++ "/dynamic.yml") (generateConfigFsOps dir reg) =
      [fs (dir ++ "/dynamic.yml"), "", renderConfig reg] ∧
    ∀ op ∈ generateConfigFsOps dir reg, ∀ src dst, op ≠ FsOp.rename src dst := by
  constructor
  · simp [generateConfigFsOps, writeFileOps, observableContents, stepFs]
  · intro op hop src dst
    simp only [generateConfigFsOps, writeFileOps, List.mem_cons, List.mem_singleton,
      List.not_mem_nil, or_false] at hop
    rcases hop with rfl | rfl <;> simp

/-- C5: one sweep removes exactly the records strictly older than the
timeout (a record exactly `timeout` old is kept), keeps every other
record unchanged and in place, reports exactly the evicted keys, and
regenerates the config iff some record was evicted. -/
theorem expire_sweep_exact (reg : Registry) (now timeout : Int)
    (hnd : (reg.map Prod.fst).Nodup) :
    ((checkHeartbeatsSweep reg now timeout).1 =
      reg.filter (fun p => decide (now - p.2.lastHeartbeat ≤ timeout))) ∧
    (∀ k, k ∈ (checkHeartbeatsSweep reg now timeout).2.1 ↔
      ∃ c, (k, c) ∈ reg ∧ timeout < now - c.lastHeartbeat) ∧
    (∀ k c, (k, c) ∈ (checkHeartbeatsSweep reg now timeout).1 ↔
      ((k, c) ∈ reg ∧ now - c.lastHeartbeat ≤ timeout)) ∧
    ((checkHeartbeatsSweep reg now timeout).2.2 = true ↔
      (checkHeartbeatsSweep reg now timeout).2.1 ≠ []) := by
  have hmain : (checkHeartbeatsSweep reg now timeout).1 =
      reg.filter (fun p => decide (now - p.2.lastHeartbeat ≤ timeout)) := by
    simp only [checkHeartbeatsSweep]
    rw [deleteIds_eq_filter]
    apply List.filter_congr
    intro p hp
    by_cases hstale : timeout < now - p.2.lastHeartbeat
    · have hmem : p.1 ∈ expiredIds reg now timeout := by
        unfold expiredIds
        exact List.mem_map_of_mem Prod.fst (List.mem_filter.mpr ⟨hp, by simpa using hstale⟩)
      have hcont : (expiredIds reg now timeout).contains p.1 = true := by simpa using hmem
      rw [hcont]
      have : ¬(now - p.2.lastHeartbeat ≤ timeout) := by omega
      simp [this]
    · have hnmem : p.1 ∉ expiredIds reg now timeout := by
        intro hmem
        unfold expiredIds at hmem
        obtain ⟨q, hq, hfst⟩ := List.mem_map.mp hmem
        obtain ⟨hqreg, hqstale⟩ := List.mem_filter.mp hq
        have hqp : q = p := eq_of_mem_of_nodupKeys hnd hqreg hp hfst
        rw [hqp] at hqstale
        simp only [decide_eq_true_eq] at hqstale
        exact hstale hqstale
      have hcont : (expiredIds reg now timeout).contains p.1 = false := by
        simpa using hnmem
      rw [hcont]
      have : now - p.2.lastHeartbeat ≤ timeout := by omega
      simp [this]
  refine ⟨hmain, ?_, ?_, ?_⟩
  · intro k
    simp only [checkHeartbeatsSweep]
    unfold expiredIds
    constructor
    · intro hk
      obtain ⟨⟨k2, c⟩, hq, hfst⟩ := List.mem_map.mp hk
      obtain ⟨hmem, hstale⟩ := List.mem_filter.mp hq
      simp only at hfst
      subst hfst
      exact ⟨c, hmem, by simpa using hstale⟩
    · rintro ⟨c, hmem, hstale⟩
      exact List.mem_map_of_mem Prod.fst (List.mem_filter.mpr ⟨hmem, by simpa using hstale⟩)
  · intro k c
    rw [hmain]
    simp [List.mem_filter]
  · simp only [checkHeartbeatsSweep]
    simp [List.length_pos]

/-- Witness for C5 at a concrete registry: at `now = 20`, `timeout = 10`,
the record with heartbeat 0 (20 old) is evicted and the record with
heartbeat 10 (exactly 10 old) is kept. -/
theorem expire_sweep_exact_witness :
    (checkHeartbeatsSweep
        [("a", ⟨"a", 1, "a", 0⟩), ("b", ⟨"b", 2, "b", 10⟩)] 20 10).1 =
      ([("a", ⟨"a", 1, "a", 0⟩), ("b", ⟨"b", 2, "b", 10⟩)] : Registry).filter
        (fun p => decide ((20 : Int) - p.2.lastHeartbeat ≤ 10)) :=
  (expire_sweep_exact [("a", ⟨"a", 1, "a", 0⟩), ("b", ⟨"b", 2, "b", 10⟩)] 20 10
    (by decide)).1

/-- C6: a POST heartbeat never triggers regeneration; when the
canonicalized id is absent it answers 404 leaving the registry unchanged;
when present it answers 200, preserves the key sequence, leaves every
other record untouched, and replaces each record stored under the key by
the same record with only `lastHeartbeat` set to `now`. -/
theorem heartbeat_frame (reg : Registry) (i : String) (now : Int) (hi : i ≠ "") :
    ((handleHeartbeat "POST" reg i now).regen = false) ∧
    (lookupClient reg (toInternalID i) = none →
      handleHeartbeat "POST" reg i now = ⟨404, reg, false⟩) ∧
    (∀ c, lookupClient reg (toInternalID i) = some c →
      (handleHeartbeat "POST" reg i now).status = 200 ∧
      ((handleHeartbeat "POST" reg i now).reg.map Prod.fst = reg.map Prod.fst) ∧
      (∀ k cc, (k, cc) ∈ reg → k ≠ toInternalID i →
        (k, cc) ∈ (handleHeartbeat "POST" reg i now).reg) ∧
      (∀ k cc, (k, cc) ∈ (handleHeartbeat "POST" reg i now).reg → k ≠ toInternalID i →
        (k, cc) ∈ reg) ∧
      (∀ cc, (toInternalID i, cc) ∈ reg →
        (toInternalID i, ⟨cc.id, cc.port, cc.subdomain, now⟩) ∈
          (handleHeartbeat "POST" reg i now).reg)) := by
  have hpost : ¬(("POST" : String) ≠ "POST") := by simp
  refine ⟨?_, ?_, ?_⟩
  · unfold handleHeartbeat
    rw [if_neg hpost, if_neg hi]
    cases lookupClient reg (toInternalID i) <;> rfl
  · intro hl
    unfold handleHeartbeat
    rw [if_neg hpost, if_neg hi, hl]
  · intro c hl
    have hout : handleHeartbeat "POST" reg i now =
        ⟨200,
          reg.map (fun p =>
            if p.1 = toInternalID i then (p.1, ⟨p.2.id, p.2.port, p.2.subdomain, now⟩)
            else p),
          false⟩ := by
      unfold handleHeartbeat
      rw [if_neg hpost, if_neg hi, hl]
    rw [hout]
    refine ⟨rfl, ?_, ?_, ?_, ?_⟩
    · rw [List.map_map]
      apply List.map_congr_left
      intro p _
      by_cases hk : p.1 = toInternalID i <;> simp [hk]
    · intro k cc hmem hk
      refine List.mem_map.mpr ⟨(k, cc), hmem, ?_⟩
      simp [hk]
    · intro k cc hmem hk
      obtain ⟨q, hq, hfq⟩ := List.mem_map.mp hmem
      by_cases hqk : q.1 = toInternalID i
      · rw [if_pos hqk] at hfq
        have : k = toInternalID i := by
          rw [← hqk]
          exact (congrArg Prod.fst hfq).symm
        exact absurd this hk
      · rw [if_neg hqk] at hfq
        rwa [hfq] at hq
    · intro cc hmem
      refine List.mem_map.mpr ⟨(toInternalID i, cc), hmem, ?_⟩
      simp

/-- Witness for C6: a heartbeat for an unknown id on a concrete registry
answers 404 and changes nothing. -/
theorem heartbeat_frame_witness :
    handleHeartbeat "POST" [("a_b", ⟨"a_b", 3000, "a.b", 0⟩)] "x" 5 =
      ⟨404, [("a_b", ⟨"a_b", 3000, "a.b", 0⟩)], false⟩ :=
  (heartbeat_frame [("a_b", ⟨"a_b", 3000, "a.b", 0⟩)] "x" 5 (by decide)).2.1 (by decide)

/-- C10: heartbeat and unregister canonicalize the raw query id without
validating it — each acts on the record stored under `toInternalID id` —
so the invalid identifier "a_b", rejected by registration validation,
refreshes or removes the record registered under the distinct display
name "a.b", both canonicalizing to the key "a_b". -/
theorem heartbeat_unregister_canonicalize (i : String) (reg : Registry) (now : Int)
    (hi : i ≠ "") :
    ((handleHeartbeat "POST" reg i now).status = 404 ↔
      lookupClient reg (toInternalID i) = none) ∧
    ((handleUnregister "POST" reg i).status = 404 ↔
      lookupClient reg (toInternalID i) = none) ∧
    validateSubdomain "a_b" = false ∧
    (∀ p now0 now1, 1 ≤ p → p ≤ 65535 →
      (handleRegister "POST" [] "a.b" p now0).reg = [("a_b", ⟨"a_b", p, "a.b", now0⟩)] ∧
      handleHeartbeat "POST" [("a_b", ⟨"a_b", p, "a.b", now0⟩)] "a_b" now1 =
        ⟨200, [("a_b", ⟨"a_b", p, "a.b", now1⟩)], false⟩ ∧
      handleUnregister "POST" [("a_b", ⟨"a_b", p, "a.b", now0⟩)] "a_b" =
        ⟨200, [], true⟩) := by
  have hpost : ¬(("POST" : String) ≠ "POST") := by simp
  refine ⟨?_, ?_, by decide, ?_⟩
  · unfold handleHeartbeat
    rw [if_neg hpost, if_neg hi]
    cases hlk : lookupClient reg (toInternalID i) with
    | none => simp
    | some c => simp
  · unfold handleUnregister
    rw [if_neg hpost, if_neg hi]
    cases hlk : lookupClient reg (toInternalID i) with
    | none => simp
    | some c => simp
  · intro p now0 now1 hp1 hp2
    have hport : ¬(p < 1 ∨ p > 65535) := by omega
    have hv : validateSubdomain "a.b" = true := by decide
    have htid : toInternalID "a.b" = "a_b" := by decide
    have htid2 : toInternalID "a_b" = "a_b" := by decide
    refine ⟨?_, ?_, ?_⟩
    · simp [handleRegister, hv, hport, htid, lookupClient]
    · simp [handleHeartbeat, htid2, lookupClient, List.find?]
    · simp [handleUnregister, htid2, lookupClient, List.find?]

/-- Witness for C10 at the invalid id "a_b" over the registry produced by
registering "a.b": the heartbeat 404-test clause instantiated. -/
theorem heartbeat_unregister_canonicalize_witness :
    ((handleHeartbeat "POST" [("a_b", ⟨"a_b", 3000, "a.b", 0⟩)] "a_b" 5).status = 404 ↔
      lookupClient [("a_b", ⟨"a_b", 3000, "a.b", 0⟩)] (toInternalID "a_b") = none) ∧
    handleHeartbeat "POST" [("a_b", ⟨"a_b", 3000, "a.b", 0⟩)] "a_b" 5 =
      ⟨200, [("a_b", ⟨"a_b", 3000, "a.b", 5⟩)], false⟩ :=
  ⟨(heartbeat_unregister_canonicalize "a_b" [("a_b", ⟨"a_b", 3000, "a.b", 0⟩)] 5
      (by decide)).1,
    ((heartbeat_unregister_canonicalize "a_b" [("a_b", ⟨"a_b", 3000, "a.b", 0⟩)] 5
      (by decide)).2.2.2 3000 0 5 (by decide) (by decide)).2.1⟩

theorem heartbeat_keys (m : String) (reg : Registry) (i : String) (now : Int) :
    (handleHeartbeat m reg i now).reg.map Prod.fst = reg.map Prod.fst := by
  unfold handleHeartbeat
  split
  · rfl
  · split
    · rfl
    · cases hlk : lookupClient reg (toInternalID i) with
      | none => rfl
      | some c =>
        simp only
        rw [List.map_map]
        apply List.map_congr_left
        intro p _
        by_cases hk : p.1 = toInternalID i <;> simp [hk]

theorem applyOp_keys_nodup (reg : Registry) (op : Op)
    (hnd : (reg.map Prod.fst).Nodup) : ((applyOp reg op).map Prod.fst).Nodup := by
  cases op with
  | register i p now =>
    simp only [applyOp]
    unfold handleRegister
    split
    · exact hnd
    · split
      · exact hnd
      · split
        · exact hnd
        · cases hlk : lookupClient reg (toInternalID i) with
          | some c => exact hnd
          | none =>
            simp only [List.map_append, List.map_cons, List.map_nil]
            rw [List.nodup_append]
            refine ⟨hnd, List.nodup_singleton _, ?_⟩
            intro a ha hb
            simp only [List.mem_cons, List.not_mem_nil, or_false] at hb
            subst hb
            exact (lookupClient_eq_none_iff reg (toInternalID i)).mp hlk ha
  | heartbeat i now =>
    simp only [applyOp]
    rw [heartbeat_keys]
    exact hnd
  | unregister i =>
    simp only [applyOp]
    unfold handleUnregister
    split
    · exact hnd
    · split
      · exact hnd
      · cases hlk : lookupClient reg (toInternalID i) with
        | none => exact hnd
        | some c =>
          exact hnd.sublist (List.Sublist.map Prod.fst (List.filter_sublist reg))
  | expire now timeout =>
    simp only [applyOp, checkHeartbeatsSweep]
    rw [deleteIds_eq_filter]
    exact hnd.sublist (List.Sublist.map Prod.fst (List.filter_sublist reg))

theorem foldl_applyOp_keys_nodup (l : List Op) : ∀ (reg : Registry),
    (reg.map Prod.fst).Nodup → ((l.foldl applyOp reg).map Prod.fst).Nodup := by
  induction l with
  | nil => intro reg h; exact h
  | cons o t ih => intro reg h; exact ih _ (applyOp_keys_nodup reg o h)

theorem runOps_keys_nodup (ops : List Op) : ((runOps ops).map Prod.fst).Nodup :=
  foldl_applyOp_keys_nodup ops [] (by simp)

theorem configRouters_keys_nodup (reg : Registry) (hnd : (reg.map Prod.fst).Nodup) :
    ((configRouters reg).map Prod.fst).Nodup := by
  unfold configRouters
  rw [List.map_map]
  have heq : (Prod.fst ∘ fun p : String × GoClient => ("sub-" ++ p.1, mkRouter p.1 p.2)) =
      ((fun s => "sub-" ++ s) ∘ Prod.fst) := rfl
  rw [heq, ← List.map_map]
  exact List.Nodup.map (fun a b h => string_append_left_cancel h) hnd

theorem configServices_keys_nodup (reg : Registry) (hnd : (reg.map Prod.fst).Nodup) :
    ((configServices reg).map Prod.fst).Nodup := by
  unfold configServices
  rw [List.map_map]
  have heq : (Prod.fst ∘ fun p : String × GoClient => ("local-" ++ p.1, mkService p.2)) =
      ((fun s => "local-" ++ s) ∘ Prod.fst) := rfl
  rw [heq, ← List.map_map]
  exact List.Nodup.map (fun a b h => string_append_left_cancel h) hnd

/-- C1: in every registry reachable by register, heartbeat, unregister and
expire operations, the generated document holds exactly one router named
`"sub-" + k` (rule `Host(<displayName>.localhost)` via the backquoted
Traefik syntax, service `"local-" + k`) and exactly one service named
`"local-" + k` (URL `http://host.docker.internal:<port>`) per live key
`k`, and no entry for any identifier not currently live. -/
theorem config_routes_exactly_live (ops : List Op) :
    (((configRouters (runOps ops)).map Prod.fst).Nodup) ∧
    (((configServices (runOps ops)).map Prod.fst).Nodup) ∧
    (∀ k c, (k, c) ∈ runOps ops →
      ("sub-" ++ k, mkRouter k c) ∈ configRouters (runOps ops) ∧
      ("local-" ++ k, mkService c) ∈ configServices (runOps ops)) ∧
    (∀ nm r, (nm, r) ∈ configRouters (runOps ops) →
      ∃ k c, (k, c) ∈ runOps ops ∧ nm = "sub-" ++ k ∧ r = mkRouter k c) ∧
    (∀ nm s, (nm, s) ∈ configServices (runOps ops) →
      ∃ k c, (k, c) ∈ runOps ops ∧ nm = "local-" ++ k ∧ s = mkService c) := by
  refine ⟨configRouters_keys_nodup _ (runOps_keys_nodup ops),
    configServices_keys_nodup _ (runOps_keys_nodup ops), ?_, ?_, ?_⟩
  · intro k c hmem
    exact ⟨List.mem_map.mpr ⟨(k, c), hmem, rfl⟩, List.mem_map.mpr ⟨(k, c), hmem, rfl⟩⟩
  · intro nm r hmem
    obtain ⟨⟨k, c⟩, hkc, heq⟩ := List.mem_map.mp hmem
    injection heq with h1 h2
    exact ⟨k, c, hkc, h1.symm, h2.symm⟩
  · intro nm s hmem
    obtain ⟨⟨k, c⟩, hkc, heq⟩ := List.mem_map.mp hmem
    injection heq with h1 h2
    exact ⟨k, c, hkc, h1.symm, h2.symm⟩

theorem sortEntries_sorted {α : Type} (l : List (String × α)) :
    (sortEntries l).Sorted (@keyLe α) :=
  List.sorted_insertionSort _ _

theorem sortEntries_perm {α : Type} (l : List (String × α)) :
    (sortEntries l).Perm l :=
  List.perm_insertionSort _ _

theorem sorted_keys_perm_eq {α : Type} :
    ∀ (l1 l2 : List (String × α)), l1.Sorted (@keyLe α) → l2.Sorted (@keyLe α) →
      (l1.map Prod.fst).Nodup → l1.Perm l2 → l1 = l2 := by
  intro l1
  induction l1 with
  | nil =>
    intro l2 _ _ _ hperm
    exact (List.Perm.eq_nil hperm.symm).symm
  | cons a t1 ih =>
    intro l2 hs1 hs2 hnd hperm
    cases l2 with
    | nil => exact absurd (List.Perm.eq_nil hperm) (by simp)
    | cons b t2 =>
      have hab : a ∈ b :: t2 := hperm.subset (List.mem_cons_self a t1)
      have hba : b ∈ a :: t1 := hperm.symm.subset (List.mem_cons_self b t2)
      have hle1 : keyLe a b := by
        rcases List.mem_cons.mp hba with heq | hbt
        · rw [heq]
          exact le_refl a.1
        · exact List.rel_of_sorted_cons hs1 b hbt
      have hle2 : keyLe b a := by
        rcases List.mem_cons.mp hab with heq | hat
        · rw [heq]
          exact le_refl b.1
        · exact List.rel_of_sorted_cons hs2 a hat
      have hkey : a.1 = b.1 := le_antisymm hle1 hle2
      have hba2 : b = a := by
        rcases List.mem_cons.mp hba with heq | hbt
        · exact heq
        · exfalso
          simp only [List.map_cons, List.nodup_cons] at hnd
          exact hnd.1 (hkey ▸ List.mem_map_of_mem Prod.fst hbt)
      subst hba2
      have htp : t1.Perm t2 := hperm.cons_inv
      have hnd2 : (t1.map Prod.fst).Nodup := by
        simp only [List.map_cons, List.nodup_cons] at hnd
        exact hnd.2
      rw [ih t2 hs1.of_cons hs2.of_cons hnd2 htp]

/-- C4: config generation is deterministic and independent of map
iteration order: two snapshots that are permutations of each other (the
same Go map iterated in different orders) marshal to byte-identical
artifact contents, because the serialization emits map keys in sorted
order. In particular generating twice from one snapshot yields identical
bytes. -/
theorem generateConfig_deterministic (reg1 reg2 : Registry)
    (hperm : reg1.Perm reg2) (hnd : (reg1.map Prod.fst).Nodup) :
    renderConfig reg1 = renderConfig reg2 := by
  have hndr : ((configRouters reg1).map Prod.fst).Nodup := configRouters_keys_nodup _ hnd
  have hnds : ((configServices reg1).map Prod.fst).Nodup := configServices_keys_nodup _ hnd
  have hpr : (configRouters reg1).Perm (configRouters reg2) := hperm.map _
  have hps : (configServices reg1).Perm (configServices reg2) := hperm.map _
  have hr : sortEntries (configRouters reg1) = sortEntries (configRouters reg2) := by
    apply sorted_keys_perm_eq
    · exact sortEntries_sorted _
    · exact sortEntries_sorted _
    · exact ((sortEntries_perm (configRouters reg1)).map Prod.fst).nodup_iff.mpr hndr
    · exact (sortEntries_perm _).trans (hpr.trans (sortEntries_perm _).symm)
  have hs : sortEntries (configServices reg1) = sortEntries (configServices reg2) := by
    apply sorted_keys_perm_eq
    · exact sortEntries_sorted _
    · exact sortEntries_sorted _
    · exact ((sortEntries_perm (configServices reg1)).map Prod.fst).nodup_iff.mpr hnds
    · exact (sortEntries_perm _).trans (hps.trans (sortEntries_perm _).symm)
  unfold renderConfig
  rw [hr, hs]

/-- Witness for C4: the same two-client snapshot in its two iteration
orders marshals to identical bytes. -/
theorem generateConfig_deterministic_witness :
    renderConfig [("a", ⟨"a", 1, "a", 0⟩), ("b", ⟨"b", 2, "b", 0⟩)] =
      renderConfig [("b", ⟨"b", 2, "b", 0⟩), ("a", ⟨"a", 1, "a", 0⟩)] :=
  generateConfig_deterministic _ _ (List.Perm.swap _ _ _) (by decide)

/-- C2: `validate(i)` is true exactly when `i` is at most 1500 bytes long
and every dot-separated label is 1 to 63 characters of ASCII
alphanumerics and hyphens, neither starting nor ending with a hyphen
(empty labels from consecutive, leading or trailing dots are rejected). -/
theorem validateSubdomain_iff_spec (s : String) :
    validateSubdomain s = true ↔ specValidIdentifier s :=
  validate_iff_spec_aux s

/-- Witness for C2 at the multi-label identifier "prod.api.service". -/
theorem validateSubdomain_iff_spec_witness :
    validateSubdomain "prod.api.service" = true ↔ specValidIdentifier "prod.api.service" :=
  validateSubdomain_iff_spec "prod.api.service"

/-- Witness for C1 after one concrete registration: both generated name
sets are duplicate-free. -/
theorem config_routes_exactly_live_witness :
    ((configRouters (runOps [Op.register "a.b" 3000 0])).map Prod.fst).Nodup ∧
    ((configServices (runOps [Op.register "a.b" 3000 0])).map Prod.fst).Nodup :=
  ⟨(config_routes_exactly_live [Op.register "a.b" 3000 0]).1,
    (config_routes_exactly_live [Op.register "a.b" 3000 0]).2.1⟩

/-- Witness for the amended C8 on the empty registry: the observable
contents at the destination are the previous contents, then the empty
truncated file, then the new document. -/
theorem generateConfig_write_not_atomic_witness :
    observableContents (fun _ => "previous") ("/config" ++ "/dynamic.yml")
        (generateConfigFsOps "/config" []) =
      ["previous", "", renderConfig []] :=
  (generateConfig_write_not_atomic "/config" [] (fun _ => "previous")).1
